import Mathlib

/-!
# Verification of the tic-tac-toe game core (`src/tic_tac_frontend/src/App.js`)

Shallow embedding of the game-state logic of the React component `App`:

* a board cell is a JavaScript value `null` (EMPTY), `'X'`/`'O'`, or a
  *hole* (a missing index of a sparse array, read back as `undefined`);
* `calculateWinner` is the literal translation of the source function,
  scanning the 8 fixed winning triples in order;
* the component state is `squares` (the board), `xIsNext` (the turn flag)
  and `theme`; `winnerInfo` and `isDraw` are recomputed from `squares` by a
  `useEffect` whenever the board changes, so they are modelled as the pure
  derived function `outcomeOf`;
* `handleSquareClick`, `handleReset`, `toggleTheme` are the event handlers.

JavaScript array semantics relevant here and reflected by `jsGet`/`jsSet`:
reading an out-of-range index yields `undefined` (falsy, like `null`);
writing index `i ≥ length` grows the array to length `i + 1`, leaving holes
in between; `Array.prototype.every` skips holes.
-/

/-- A player's mark: the strings `'X'` and `'O'` of the source. -/
inductive Player where
  | X : Player
  | O : Player
deriving DecidableEq, Repr

/-- A board cell value: `empty` is JavaScript `null` (the initial fill),
`hole` is a missing index of a sparse array (read as `undefined`),
`mark p` is the string `'X'` or `'O'`. -/
inductive Cell where
  | empty : Cell
  | hole : Cell
  | mark : Player → Cell
deriving DecidableEq, Repr

/-- JavaScript truthiness of a cell value: `null` and `undefined` are falsy,
the non-empty strings `'X'`/`'O'` are truthy. -/
def Cell.truthy : Cell → Bool
  | .mark _ => true
  | _ => false

/-- The player held by a cell, if any. -/
def Cell.player : Cell → Option Player
  | .mark p => some p
  | _ => none

/-- Reading `squares[i]`: the element when `i` is in range, otherwise
`undefined` (modelled as `hole`, which is falsy like every hole). -/
def jsGet (b : List Cell) (i : Nat) : Cell :=
  b.getD i .hole

/-- Writing `squares[i] = v` on a copied array: in range it replaces the
element; past the end it grows the array to length `i + 1`, the skipped
indices becoming holes. -/
def jsSet (b : List Cell) (i : Nat) (v : Cell) : List Cell :=
  if i < b.length then b.set i v
  else b ++ List.replicate (i - b.length) .hole ++ [v]

/-- `squares.every(Boolean)`: `every` skips holes of a sparse array, so the
test fails exactly on a `null` element. -/
def jsEveryTruthy (b : List Cell) : Bool :=
  b.all fun c => !(c == Cell.empty)

/-- The 8 winning triples of `calculateWinner`, in the source's order:
3 rows, 3 columns, 2 diagonals. -/
def lines : List (Nat × Nat × Nat) :=
  [(0, 1, 2), (3, 4, 5), (6, 7, 8),
   (0, 3, 6), (1, 4, 7), (2, 5, 8),
   (0, 4, 8), (2, 4, 6)]

/-- The loop body's test: `squares[a] && squares[a] === squares[b] &&
squares[a] === squares[c]`. -/
def lineWins (b : List Cell) : Nat × Nat × Nat → Bool
  | (x, y, z) =>
    (jsGet b x).truthy && (jsGet b x == jsGet b y) && (jsGet b x == jsGet b z)

/-- The result of `calculateWinner`: `{winner, line}`. -/
structure WinnerInfo where
  winner : Option Player
  line : Option (Nat × Nat × Nat)
deriving DecidableEq, Repr

/-- The `for (let line of lines)` loop of `calculateWinner`: return at the
first triple passing the test, else fall through to `{null, null}`. -/
def winnerSearch (b : List Cell) : List (Nat × Nat × Nat) → WinnerInfo
  | [] => ⟨none, none⟩
  | t :: rest =>
    if lineWins b t then ⟨(jsGet b t.1).player, some t⟩
    else winnerSearch b rest

/-- `calculateWinner(squares)` from the source. -/
def calculateWinner (b : List Cell) : WinnerInfo :=
  winnerSearch b lines

/-- The UI theme flag. -/
inductive Theme where
  | light : Theme
  | dark : Theme
deriving DecidableEq, Repr

/-- The component state held in React `useState` hooks. `winnerInfo` and
`isDraw` are not stored: the `useEffect` recomputes them from `squares`
after every change, so they are the derived function `outcomeOf`. -/
structure AppState where
  squares : List Cell
  xIsNext : Bool
  theme : Theme
deriving DecidableEq, Repr

/-- The spec's Outcome variant. `won` carries `winnerInfo` as the effect
stores it: the winner and the (always present alongside it) line. -/
inductive Outcome where
  | inProgress : Outcome
  | draw : Outcome
  | won : Player → Option (Nat × Nat × Nat) → Outcome
deriving DecidableEq, Repr

/-- The outcome-updating `useEffect`: if `calculateWinner` names a winner the
game is won; otherwise if `squares.every(Boolean)` it is a draw; otherwise it
is in progress. -/
def outcomeOf (b : List Cell) : Outcome :=
  match calculateWinner b with
  | ⟨some p, l⟩ => .won p l
  | ⟨none, _⟩ => if jsEveryTruthy b then .draw else .inProgress

/-- The mark the current turn would place: `xIsNext ? 'X' : 'O'`. -/
def curMark (s : AppState) : Cell :=
  if s.xIsNext then .mark .X else .mark .O

/-- `handleSquareClick(i)`: ignore the click if there is a winner or
`squares[i]` is truthy; otherwise copy the board, write the current mark at
`i`, and flip the turn flag. -/
def handleSquareClick (s : AppState) (i : Nat) : AppState :=
  if (calculateWinner s.squares).winner.isSome || (jsGet s.squares i).truthy then s
  else { s with squares := jsSet s.squares i (curMark s), xIsNext := !s.xIsNext }

/-- `handleReset()`: fresh all-`null` board, X to move (the derived
`winnerInfo`/`isDraw` recompute accordingly). The theme is untouched. -/
def handleReset (s : AppState) : AppState :=
  { s with squares := List.replicate 9 .empty, xIsNext := true }

/-- `toggleTheme()`: flip between light and dark. -/
def toggleTheme (s : AppState) : AppState :=
  { s with theme := if s.theme = .light then .dark else .light }

/-- The initial state: `Array(9).fill(null)`, X to move, light theme. -/
def initState : AppState :=
  ⟨List.replicate 9 .empty, true, .light⟩

/-- A well-formed board: exactly 9 cells and no sparse-array holes — the
shape every board reachable through the UI has. -/
def BoardWF (b : List Cell) : Prop :=
  b.length = 9 ∧ ∀ c ∈ b, c ≠ Cell.hole

instance (b : List Cell) : Decidable (BoardWF b) := by
  unfold BoardWF; infer_instance

/-- Run a list of clicks through `handleSquareClick`. -/
def runClicks (s : AppState) (ms : List Nat) : AppState :=
  ms.foldl handleSquareClick s

/-- Whether a click at `i` passes the guard of `handleSquareClick`. -/
def acceptedClick (s : AppState) (i : Nat) : Bool :=
  !((calculateWinner s.squares).winner.isSome || (jsGet s.squares i).truthy)

/-- Number of clicks of a run that are accepted (change the state). -/
def countAccepted (s : AppState) : List Nat → Nat
  | [] => 0
  | i :: ms =>
    (if acceptedClick s i then 1 else 0) + countAccepted (handleSquareClick s i) ms

/-- The user-visible operations on the component state. -/
inductive Op where
  | click : Nat → Op
  | reset : Op
  | toggle : Op
deriving DecidableEq, Repr

/-- Apply one operation. -/
def applyOp (s : AppState) : Op → AppState
  | .click i => handleSquareClick s i
  | .reset => handleReset s
  | .toggle => toggleTheme s

/-- Run a list of operations. -/
def runOps (s : AppState) (ops : List Op) : AppState :=
  ops.foldl applyOp s

/-- A click operation carrying an index in `[0,8]` (the only indices the
board UI ever emits); `reset` and `toggle` carry nothing. -/
def Op.inRange : Op → Prop
  | .click i => i ≤ 8
  | _ => True

instance (op : Op) : Decidable op.inRange := by
  cases op <;> simp [Op.inRange] <;> infer_instance

/-- How many cells hold the mark of player `p`. -/
def countMark (p : Player) (b : List Cell) : Nat :=
  b.countP fun c => c == Cell.mark p

example : calculateWinner (List.replicate 9 .empty) = ⟨none, none⟩ := by decide
example : outcomeOf (List.replicate 9 .empty) = .inProgress := by decide
example :
    calculateWinner
      [.mark .X, .mark .X, .mark .X, .mark .O, .mark .O, .empty, .empty, .empty, .empty] =
      ⟨some .X, some (0, 1, 2)⟩ := by decide
example :
    outcomeOf
      [.mark .X, .mark .O, .mark .X, .mark .O, .mark .X, .mark .O, .mark .O, .mark .X, .mark .O] =
      .draw := by decide
example : handleSquareClick initState 0 =
    ⟨.mark .X :: List.replicate 8 .empty, false, .light⟩ := by decide
example : handleSquareClick initState 9 ≠ initState := by decide
example : (handleSquareClick initState 9).squares.length = 10 := by decide

/-! ## Lemmas about the winner scan -/

theorem lineWins_player (b : List Cell) (t : Nat × Nat × Nat)
    (h : lineWins b t = true) :
    ∃ p, jsGet b t.1 = .mark p ∧ jsGet b t.2.1 = .mark p ∧ jsGet b t.2.2 = .mark p := by
  obtain ⟨x, y, z⟩ := t
  simp only [lineWins, Bool.and_eq_true, beq_iff_eq] at h
  obtain ⟨⟨ht, hy⟩, hz⟩ := h
  cases hc : jsGet b x with
  | empty => rw [hc] at ht; simp [Cell.truthy] at ht
  | hole => rw [hc] at ht; simp [Cell.truthy] at ht
  | mark p => exact ⟨p, rfl, by rw [← hy, hc], by rw [← hz, hc]⟩

theorem winnerSearch_eq_find (b : List Cell) (L : List (Nat × Nat × Nat)) :
    winnerSearch b L =
      match L.find? (lineWins b) with
      | some t => ⟨(jsGet b t.1).player, some t⟩
      | none => ⟨none, none⟩ := by
  induction L with
  | nil => rfl
  | cons t rest ih =>
    by_cases h : lineWins b t = true
    · simp [winnerSearch, h, List.find?_cons_of_pos]
    · rw [List.find?_cons_of_neg _ (by simpa using h)]
      simpa [winnerSearch, h] using ih

theorem calculateWinner_winner_none_iff (b : List Cell) :
    (calculateWinner b).winner = none ↔ ∀ t ∈ lines, lineWins b t = false := by
  rw [calculateWinner, winnerSearch_eq_find]
  cases hf : lines.find? (lineWins b) with
  | none =>
    simp only [true_iff]
    intro t ht
    exact Bool.eq_false_iff.mpr fun hw =>
      (List.find?_eq_none.mp hf t ht) hw
  | some t =>
    have hw := List.find?_some hf
    obtain ⟨p, hp, -, -⟩ := lineWins_player b t hw
    have hmem := List.mem_of_find?_eq_some hf
    simp only [hp, Cell.player]
    constructor
    · intro h; cases h
    · intro h
      have := h t hmem
      rw [this] at hw
      cases hw

theorem calculateWinner_of_win (b : List Cell) (t : Nat × Nat × Nat)
    (hmem : t ∈ lines) (hwin : lineWins b t = true) :
    ∃ t' p, lines.find? (lineWins b) = some t' ∧
      calculateWinner b = ⟨some p, some t'⟩ ∧ jsGet b t'.1 = .mark p := by
  have hf : (lines.find? (lineWins b)).isSome := by
    cases hf : lines.find? (lineWins b) with
    | none => exact absurd hwin (by simpa using List.find?_eq_none.mp hf t hmem)
    | some t' => rfl
  obtain ⟨t', ht'⟩ := Option.isSome_iff_exists.mp hf
  obtain ⟨p, hp, -, -⟩ := lineWins_player b t' (List.find?_some ht')
  refine ⟨t', p, ht', ?_, hp⟩
  rw [calculateWinner, winnerSearch_eq_find, ht']
  simp only [hp, Cell.player]

/-! ## C2 and C10: the winner computation -/

/-- C2: `calculateWinner` checks exactly the 8 winning triples (3 rows,
3 columns, 2 diagonals) in the fixed order of `lines` and, whenever some
triple of the enumeration has its three cells equal and non-EMPTY, returns
`Won{player, line}` for the *first* such triple: the returned line sits at an
index of `lines` before which no triple wins, its three cells all hold the
winner's mark, and when the winning triple is unique it is exactly the one
returned. -/
theorem claim_C2 (b : List Cell) (t : Nat × Nat × Nat)
    (hmem : t ∈ lines) (hwin : lineWins b t = true) :
    lines = [(0, 1, 2), (3, 4, 5), (6, 7, 8), (0, 3, 6), (1, 4, 7), (2, 5, 8),
             (0, 4, 8), (2, 4, 6)] ∧
    ∃ t' p, calculateWinner b = ⟨some p, some t'⟩ ∧
      jsGet b t'.1 = .mark p ∧ jsGet b t'.2.1 = .mark p ∧ jsGet b t'.2.2 = .mark p ∧
      (∃ i : Fin lines.length, lines.get i = t' ∧
        ∀ j : Fin lines.length, j < i → lineWins b (lines.get j) = false) ∧
      ((∀ u ∈ lines, lineWins b u = true → u = t) → t' = t) := by
  obtain ⟨t', p, hfind, hcalc, -⟩ := calculateWinner_of_win b t hmem hwin
  have hw' : lineWins b t' = true := List.find?_some hfind
  obtain ⟨q, hq1, hq2, hq3⟩ := lineWins_player b t' hw'
  have hpq : p = q := by
    rw [calculateWinner, winnerSearch_eq_find, hfind] at hcalc
    simp only [hq1, Cell.player, WinnerInfo.mk.injEq, Option.some.injEq] at hcalc
    exact hcalc.1.symm
  subst hpq
  refine ⟨rfl, t', p, hcalc, hq1, hq2, hq3, ?_, ?_⟩
  · obtain ⟨-, i, hi, hget, hbefore⟩ := List.find?_eq_some_iff_getElem.mp hfind
    exact ⟨⟨i, hi⟩, by simpa using hget,
      fun j hj => by simpa using hbefore j.1 hj⟩
  · intro huniq
    exact huniq t' (List.mem_of_find?_eq_some hfind) hw'

/-- Witness for C2 at a concrete board: X owns the top row of
`[X, X, X, O, O, _, _, _, _]` and the claim yields the winner `X` with line
`(0, 1, 2)`. -/
theorem claim_C2_witness :
    (0, 1, 2) ∈ lines ∧
    lineWins [.mark .X, .mark .X, .mark .X, .mark .O, .mark .O,
              .empty, .empty, .empty, .empty] (0, 1, 2) = true ∧
    calculateWinner [.mark .X, .mark .X, .mark .X, .mark .O, .mark .O,
                     .empty, .empty, .empty, .empty] = ⟨some .X, some (0, 1, 2)⟩ := by
  refine ⟨by decide, by decide, ?_⟩
  obtain ⟨-, t', p, hcalc, -, -, -, ⟨i, hget, hbefore⟩, huniq⟩ :=
    claim_C2 [.mark .X, .mark .X, .mark .X, .mark .O, .mark .O,
              .empty, .empty, .empty, .empty] (0, 1, 2) (by decide) (by decide)
  have ht' : t' = (0, 1, 2) := huniq (by decide)
  subst ht'
  have hp : p = .X := by
    have := hcalc ▸ (by decide :
      (calculateWinner [.mark .X, .mark .X, .mark .X, .mark .O, .mark .O,
        .empty, .empty, .empty, .empty]).winner = some Player.X)
    simpa using this
  subst hp
  exact hcalc

/-- C10: on every board, `calculateWinner` returns `winner` and `line`
either both null or both non-null; in the non-null case the line is one of
the 8 fixed triples and its three cells all hold the winner's mark. -/
theorem claim_C10 (b : List Cell) :
    calculateWinner b = ⟨none, none⟩ ∨
    ∃ p t, calculateWinner b = ⟨some p, some t⟩ ∧ t ∈ lines ∧
      jsGet b t.1 = .mark p ∧ jsGet b t.2.1 = .mark p ∧ jsGet b t.2.2 = .mark p := by
  rw [calculateWinner, winnerSearch_eq_find]
  cases hf : lines.find? (lineWins b) with
  | none => exact Or.inl rfl
  | some t =>
    obtain ⟨p, hp1, hp2, hp3⟩ := lineWins_player b t (List.find?_some hf)
    exact Or.inr ⟨p, t, by simp only [hp1, Cell.player],
      List.mem_of_find?_eq_some hf, hp1, hp2, hp3⟩

/-! ## Click dynamics -/

theorem handleSquareClick_rejected (s : AppState) (i : Nat)
    (h : acceptedClick s i = false) : handleSquareClick s i = s := by
  unfold handleSquareClick
  unfold acceptedClick at h
  simp only [Bool.not_eq_false'] at h
  simp [h]

theorem handleSquareClick_accepted (s : AppState) (i : Nat)
    (h : acceptedClick s i = true) :
    handleSquareClick s i =
      { s with squares := jsSet s.squares i (curMark s), xIsNext := !s.xIsNext } := by
  unfold handleSquareClick
  unfold acceptedClick at h
  simp only [Bool.not_eq_true'] at h
  simp [h]

theorem runClicks_cons (s : AppState) (i : Nat) (ms : List Nat) :
    runClicks s (i :: ms) = runClicks (handleSquareClick s i) ms := rfl

theorem runClicks_xIsNext (ms : List Nat) : ∀ s : AppState,
    (runClicks s ms).xIsNext =
      if countAccepted s ms % 2 = 0 then s.xIsNext else !s.xIsNext := by
  induction ms with
  | nil => intro s; simp [runClicks, countAccepted]
  | cons i ms ih =>
    intro s
    rw [runClicks_cons, ih (handleSquareClick s i)]
    by_cases h : acceptedClick s i = true
    · have hx : (handleSquareClick s i).xIsNext = !s.xIsNext := by
        rw [handleSquareClick_accepted s i h]
      have hcnt : countAccepted s (i :: ms) =
          1 + countAccepted (handleSquareClick s i) ms := by
        simp [countAccepted, h]
      rw [hx, hcnt]
      rcases Nat.even_or_odd (countAccepted (handleSquareClick s i) ms) with he | ho
      · rw [Nat.even_iff] at he
        have h1 : (1 + countAccepted (handleSquareClick s i) ms) % 2 = 1 := by omega
        simp [he, h1]
      · rw [Nat.odd_iff] at ho
        have h1 : (1 + countAccepted (handleSquareClick s i) ms) % 2 = 0 := by omega
        simp [ho, h1]
    · rw [Bool.not_eq_true] at h
      have hcnt : countAccepted s (i :: ms) = countAccepted (handleSquareClick s i) ms := by
        simp [countAccepted, h]
      rw [hcnt, handleSquareClick_rejected s i h]

/-! ## Mark counting and the turn/count invariant -/

theorem countP_set_of_neg (p : Cell → Bool) :
    ∀ (b : List Cell) (i : Nat) (v : Cell), i < b.length →
      p (jsGet b i) = false →
      (b.set i v).countP p = b.countP p + (if p v then 1 else 0) := by
  intro b
  induction b with
  | nil => intro i v hi; simp at hi
  | cons c rest ih =>
    intro i v hi hp
    cases i with
    | zero =>
      simp only [jsGet, List.getD_cons_zero] at hp
      simp [List.countP_cons, hp]
    | succ j =>
      simp only [jsGet, List.getD_cons_succ] at hp
      have hj : j < rest.length := by simpa using hi
      simp only [List.set_cons_succ, List.countP_cons, ih j v hj hp]
      omega

theorem countMark_jsSet (q : Player) (b : List Cell) (i : Nat) (v : Cell)
    (h : (jsGet b i).truthy = false) :
    countMark q (jsSet b i v) = countMark q b + (if v = .mark q then 1 else 0) := by
  have hp : (fun c => c == Cell.mark q) (jsGet b i) = false := by
    cases hc : jsGet b i with
    | empty => simp
    | hole => simp
    | mark p => rw [hc] at h; simp [Cell.truthy] at h
  unfold countMark jsSet
  by_cases hi : i < b.length
  · simp only [hi, if_true]
    rw [countP_set_of_neg _ b i v hi hp]
    simp
  · simp only [hi, if_false, List.countP_append]
    rw [List.countP_replicate]
    simp [List.countP_cons]

/-- Relation between the turn flag and the mark counts that every state
reachable by clicks satisfies: X has moved as often as O when X is to move,
and exactly once more when O is to move. -/
def turnCountInv (s : AppState) : Prop :=
  (s.xIsNext = true ∧ countMark .X s.squares = countMark .O s.squares) ∨
  (s.xIsNext = false ∧ countMark .X s.squares = countMark .O s.squares + 1)

theorem turnCountInv_init : turnCountInv initState := by
  left; exact ⟨rfl, by decide⟩

theorem turnCountInv_click (s : AppState) (i : Nat) (h : turnCountInv s) :
    turnCountInv (handleSquareClick s i) := by
  by_cases ha : acceptedClick s i = true
  · have htr : (jsGet s.squares i).truthy = false := by
      unfold acceptedClick at ha
      simp only [Bool.not_eq_eq_eq_not, Bool.not_true, Bool.or_eq_false_iff] at ha
      exact ha.2
    rw [handleSquareClick_accepted s i ha]
    rcases h with ⟨hx, hc⟩ | ⟨hx, hc⟩
    · refine Or.inr ⟨by simp [hx], ?_⟩
      show countMark .X (jsSet s.squares i (curMark s)) =
        countMark .O (jsSet s.squares i (curMark s)) + 1
      rw [countMark_jsSet .X s.squares i _ htr, countMark_jsSet .O s.squares i _ htr]
      simp [curMark, hx, hc]
    · refine Or.inl ⟨by simp [hx], ?_⟩
      show countMark .X (jsSet s.squares i (curMark s)) =
        countMark .O (jsSet s.squares i (curMark s))
      rw [countMark_jsSet .X s.squares i _ htr, countMark_jsSet .O s.squares i _ htr]
      simp [curMark, hx, hc]
  · rw [Bool.not_eq_true] at ha
    rwa [handleSquareClick_rejected s i ha]

theorem turnCountInv_runClicks (ms : List Nat) :
    ∀ s : AppState, turnCountInv s → turnCountInv (runClicks s ms) := by
  induction ms with
  | nil => intro s h; exact h
  | cons i ms ih =>
    intro s h
    rw [runClicks_cons]
    exact ih _ (turnCountInv_click s i h)

/-- The board of the spec's draw scenario, cells in index order:
`X,O,X,O,X,O,O,X,O`. -/
def specDrawBoard : List Cell :=
  [.mark .X, .mark .O, .mark .X, .mark .O, .mark .X,
   .mark .O, .mark .O, .mark .X, .mark .O]

theorem outcomeOf_of_winner_none (b : List Cell)
    (h : (calculateWinner b).winner = none) :
    outcomeOf b = if jsEveryTruthy b then .draw else .inProgress := by
  unfold outcomeOf
  rcases hcw : calculateWinner b with ⟨w, l⟩
  rw [hcw] at h
  simp only at h
  subst h
  rfl

theorem jsEveryTruthy_eq_true_iff (b : List Cell) :
    jsEveryTruthy b = true ↔ ∀ c ∈ b, c ≠ Cell.empty := by
  simp [jsEveryTruthy]

/-! ## C3: draw and in-progress detection -/

/-- C3 (amended): for every 9-cell board with no winning triple, the outcome
is `Draw` when no cell is EMPTY and `InProgress` when some cell is EMPTY; the
spec's scenario board `X,O,X,O,X,O,O,X,O` does evaluate to `Draw`. (The
scenario's "reached by moves filling the board in that pattern" is dropped:
that board is unreachable, see the counterexample.) -/
theorem claim_C3 (b : List Cell) (hlen : b.length = 9)
    (hnw : ∀ t ∈ lines, lineWins b t = false) :
    ((∀ c ∈ b, c ≠ Cell.empty) → outcomeOf b = .draw) ∧
    ((∃ c ∈ b, c = Cell.empty) → outcomeOf b = .inProgress) ∧
    outcomeOf specDrawBoard = .draw := by
  have hw : (calculateWinner b).winner = none :=
    (calculateWinner_winner_none_iff b).mpr hnw
  rw [outcomeOf_of_winner_none b hw]
  refine ⟨?_, ?_, by decide⟩
  · intro hfull
    rw [(jsEveryTruthy_eq_true_iff b).mpr hfull]
    rfl
  · rintro ⟨c, hc, rfl⟩
    have : jsEveryTruthy b = false := by
      rw [Bool.eq_false_iff]
      intro hall
      exact (jsEveryTruthy_eq_true_iff b).mp hall _ hc rfl
    rw [this]
    rfl

/-- Witness for C3: the empty board (no winning triple, an EMPTY cell) is
`InProgress`, and the scenario board evaluates to `Draw`. -/
theorem claim_C3_witness :
    outcomeOf (List.replicate 9 Cell.empty) = Outcome.inProgress ∧
    outcomeOf specDrawBoard = Outcome.draw :=
  ⟨(claim_C3 (List.replicate 9 .empty) (by decide) (by decide)).2.1
      ⟨Cell.empty, by decide, rfl⟩,
   (claim_C3 (List.replicate 9 .empty) (by decide) (by decide)).2.2⟩

/-- Counterexample for C3's scenario: the board `X,O,X,O,X,O,O,X,O` holds
4 X marks and 5 O marks, and no click sequence from the initial state
produces it — X always moves first, so a reachable board never has more O
than X marks. -/
theorem claim_C3_counterexample :
    outcomeOf specDrawBoard = Outcome.draw ∧
    countMark .X specDrawBoard = 4 ∧
    countMark .O specDrawBoard = 5 ∧
    ¬ ∃ ms : List Nat, (runClicks initState ms).squares = specDrawBoard := by
  refine ⟨by decide, by decide, by decide, ?_⟩
  rintro ⟨ms, hms⟩
  have hinv := turnCountInv_runClicks ms initState turnCountInv_init
  unfold turnCountInv at hinv
  rw [hms] at hinv
  have hX : countMark .X specDrawBoard = 4 := by decide
  have hO : countMark .O specDrawBoard = 5 := by decide
  rw [hX, hO] at hinv
  rcases hinv with ⟨-, hc⟩ | ⟨-, hc⟩ <;> omega

/-! ## C1: accepted moves -/

theorem jsGet_set_self (b : List Cell) (i : Nat) (v : Cell) (h : i < b.length) :
    jsGet (b.set i v) i = v := by
  unfold jsGet
  rw [List.getD_eq_getElem?_getD, List.getElem?_set_self h]
  rfl

theorem jsGet_set_ne (b : List Cell) (i j : Nat) (v : Cell) (h : i ≠ j) :
    jsGet (b.set i v) j = jsGet b j := by
  unfold jsGet
  rw [List.getD_eq_getElem?_getD, List.getD_eq_getElem?_getD,
    List.getElem?_set_ne h]

theorem winner_none_of_inProgress (b : List Cell)
    (h : outcomeOf b = .inProgress) : (calculateWinner b).winner = none := by
  rcases hcw : calculateWinner b with ⟨w, l⟩
  cases w with
  | none => rfl
  | some p =>
    exfalso
    unfold outcomeOf at h
    rw [hcw] at h
    exact absurd h (by simp)

theorem accepted_of_inProgress_empty (s : AppState) (i : Nat)
    (ho : outcomeOf s.squares = .inProgress)
    (hc : jsGet s.squares i = .empty) :
    acceptedClick s i = true := by
  unfold acceptedClick
  rw [winner_none_of_inProgress s.squares ho, hc]
  rfl

/-- C1: an in-range click on an EMPTY cell of an in-progress game writes the
mark of the current turn (X when `xIsNext`, O otherwise) into that cell,
flips the turn flag, leaves the theme alone, and the derived outcome is the
recomputation over the new board; and over any click sequence from the
initial state the turn flag is X exactly after an even number of accepted
moves — the accepted moves strictly alternate X,O,X,O,... -/
theorem claim_C1 (s : AppState) (i : Nat) (hi : i ≤ 8)
    (hwf : BoardWF s.squares)
    (ho : outcomeOf s.squares = .inProgress)
    (hc : jsGet s.squares i = .empty) :
    handleSquareClick s i =
      { s with squares := s.squares.set i (curMark s), xIsNext := !s.xIsNext } ∧
    jsGet (handleSquareClick s i).squares i = curMark s ∧
    (s.xIsNext = true → jsGet (handleSquareClick s i).squares i = .mark .X) ∧
    (s.xIsNext = false → jsGet (handleSquareClick s i).squares i = .mark .O) ∧
    (handleSquareClick s i).xIsNext = !s.xIsNext ∧
    outcomeOf (handleSquareClick s i).squares =
      outcomeOf (s.squares.set i (curMark s)) ∧
    (∀ ms : List Nat, (runClicks initState ms).xIsNext =
      decide (countAccepted initState ms % 2 = 0)) := by
  have hlt : i < s.squares.length := by rw [hwf.1]; omega
  have hstep : handleSquareClick s i =
      { s with squares := s.squares.set i (curMark s), xIsNext := !s.xIsNext } := by
    rw [handleSquareClick_accepted s i (accepted_of_inProgress_empty s i ho hc)]
    unfold jsSet
    rw [if_pos hlt]
  have hget : jsGet (handleSquareClick s i).squares i = curMark s := by
    rw [hstep]
    exact jsGet_set_self s.squares i (curMark s) hlt
  refine ⟨hstep, hget, ?_, ?_, by rw [hstep], by rw [hstep], ?_⟩
  · intro hx; rw [hget]; simp [curMark, hx]
  · intro hx; rw [hget]; simp [curMark, hx]
  · intro ms
    rw [runClicks_xIsNext ms initState]
    by_cases hp : countAccepted initState ms % 2 = 0 <;> simp [hp, initState]

/-- Witness for C1: clicking square 0 of the initial state places an X
there and hands the turn to O. -/
theorem claim_C1_witness :
    (0 : Nat) ≤ 8 ∧ BoardWF initState.squares ∧
    outcomeOf initState.squares = Outcome.inProgress ∧
    jsGet initState.squares 0 = Cell.empty ∧
    handleSquareClick initState 0 =
      { initState with squares := initState.squares.set 0 (curMark initState),
                       xIsNext := !initState.xIsNext } :=
  ⟨by decide, by decide, by decide, by decide,
   (claim_C1 initState 0 (by decide) (by decide) (by decide) (by decide)).1⟩

/-! ## C4, C5: rejected moves -/

theorem winner_some_of_won (b : List Cell) (p : Player)
    (l : Option (Nat × Nat × Nat)) (h : outcomeOf b = .won p l) :
    (calculateWinner b).winner = some p := by
  rcases hcw : calculateWinner b with ⟨w, l'⟩
  unfold outcomeOf at h
  rw [hcw] at h
  cases w with
  | none =>
    exfalso
    by_cases he : jsEveryTruthy b = true <;> simp [he] at h
  | some q => simp at h; rw [h.1]

theorem every_of_draw (b : List Cell) (h : outcomeOf b = .draw) :
    jsEveryTruthy b = true := by
  rcases hcw : calculateWinner b with ⟨w, l'⟩
  unfold outcomeOf at h
  rw [hcw] at h
  cases w with
  | none =>
    by_cases he : jsEveryTruthy b = true
    · exact he
    · simp [he] at h
  | some q => simp at h

theorem jsGet_mem (b : List Cell) (i : Nat) (h : i < b.length) :
    jsGet b i ∈ b := by
  unfold jsGet
  rw [List.getD_eq_getElem?_getD, List.getElem?_eq_getElem h]
  exact List.getElem_mem h

theorem truthy_of_wf_occupied (b : List Cell) (i : Nat) (hwf : BoardWF b)
    (hi : i ≤ 8) (hne : jsGet b i ≠ .empty) : (jsGet b i).truthy = true := by
  have hmem : jsGet b i ∈ b := jsGet_mem b i (by rw [hwf.1]; omega)
  cases hc : jsGet b i with
  | empty => exact absurd hc hne
  | hole => exact absurd (hc ▸ hmem) (by simpa using hwf.2 .hole)
  | mark p => rfl

/-- C4: in a terminal state (Won or Draw), or on an occupied cell, an
in-range click is a complete no-op: the whole state — board, turn flag,
theme, hence also the derived outcome — is unchanged. -/
theorem claim_C4 (s : AppState) (i : Nat) (hi : i ≤ 8)
    (hwf : BoardWF s.squares)
    (h : (∃ p l, outcomeOf s.squares = .won p l) ∨
      outcomeOf s.squares = .draw ∨ jsGet s.squares i ≠ .empty) :
    handleSquareClick s i = s := by
  apply handleSquareClick_rejected
  unfold acceptedClick
  rcases h with ⟨p, l, hwon⟩ | hdraw | hocc
  · rw [winner_some_of_won s.squares p l hwon]
    rfl
  · have hocc : jsGet s.squares i ≠ .empty := by
      have hmem : jsGet s.squares i ∈ s.squares :=
        jsGet_mem s.squares i (by rw [hwf.1]; omega)
      have := (jsEveryTruthy_eq_true_iff s.squares).mp
        (every_of_draw s.squares hdraw) _ hmem
      exact this
    rw [truthy_of_wf_occupied s.squares i hwf hi hocc]
    simp
  · rw [truthy_of_wf_occupied s.squares i hwf hi hocc]
    simp

/-- Witness for C4, the spec's scenario: clicking square 4 after X has won
the top row changes nothing. -/
theorem claim_C4_witness :
    (4 : Nat) ≤ 8 ∧
    BoardWF [Cell.mark .X, .mark .X, .mark .X, .mark .O, .mark .O,
             .empty, .empty, .empty, .empty] ∧
    outcomeOf [Cell.mark .X, .mark .X, .mark .X, .mark .O, .mark .O,
               .empty, .empty, .empty, .empty] = .won .X (some (0, 1, 2)) ∧
    handleSquareClick
      ⟨[Cell.mark .X, .mark .X, .mark .X, .mark .O, .mark .O,
        .empty, .empty, .empty, .empty], false, .light⟩ 4 =
      ⟨[Cell.mark .X, .mark .X, .mark .X, .mark .O, .mark .O,
        .empty, .empty, .empty, .empty], false, .light⟩ :=
  ⟨by decide, by decide, by decide,
   claim_C4
     ⟨[Cell.mark .X, .mark .X, .mark .X, .mark .O, .mark .O,
       .empty, .empty, .empty, .empty], false, .light⟩ 4
     (by decide) (by decide)
     (Or.inl ⟨.X, some (0, 1, 2), by decide⟩)⟩

/-- Counterexample for C5: `handleSquareClick` never validates the index.
Clicking index 9 on the fresh board is *not* ignored: the board grows to
10 cells, X lands at index 9, and the turn passes to O. -/
theorem claim_C5_counterexample :
    handleSquareClick initState 9 ≠ initState ∧
    (handleSquareClick initState 9).squares.length = 10 ∧
    jsGet (handleSquareClick initState 9).squares 9 = Cell.mark .X ∧
    (handleSquareClick initState 9).xIsNext = false := by
  refine ⟨?_, by decide, by decide, by decide⟩
  intro h
  have := congrArg (fun s => s.squares.length) h
  simp at this
  revert this
  decide

/-- C5 (amended): out-of-range indices are not validated and the call is
*not* a no-op in general. For an index `i ≥ 9` on a well-formed board the
click raises nothing and: when a winner exists it is rejected by the guard
(state unchanged), but otherwise the current mark is written at index `i` —
growing the board past 9 cells with holes in between — and the turn flag
flips. -/
theorem claim_C5 (s : AppState) (i : Nat) (hwf : BoardWF s.squares)
    (hi : 9 ≤ i) :
    handleSquareClick s i =
      if (calculateWinner s.squares).winner.isSome then s
      else { s with
        squares := s.squares ++ List.replicate (i - 9) .hole ++ [curMark s],
        xIsNext := !s.xIsNext } := by
  have hh : jsGet s.squares i = .hole := by
    unfold jsGet
    rw [List.getD_eq_getElem?_getD, List.getElem?_eq_none (by rw [hwf.1]; omega)]
    rfl
  have hset : jsSet s.squares i (curMark s) =
      s.squares ++ List.replicate (i - 9) .hole ++ [curMark s] := by
    unfold jsSet
    rw [if_neg (by rw [hwf.1]; omega), hwf.1]
  unfold handleSquareClick
  rw [hh, hset]
  simp only [Cell.truthy, Bool.or_false]

/-- Witness for C5 (amended) at the initial state and index 10: no winner,
so the click appends a hole and an X and flips the turn. -/
theorem claim_C5_witness :
    BoardWF initState.squares ∧ (9 : Nat) ≤ 10 ∧
    handleSquareClick initState 10 =
      if (calculateWinner initState.squares).winner.isSome then initState
      else { initState with
        squares := initState.squares ++ List.replicate (10 - 9) .hole ++
          [curMark initState],
        xIsNext := !initState.xIsNext } :=
  ⟨by decide, by decide, claim_C5 initState 10 (by decide) (by decide)⟩

/-! ## C6: reset -/

/-- C6: from every state whatsoever, `handleReset` restores the exact
initial game state: a 9-cell all-EMPTY board, X to move, outcome
`InProgress`. -/
theorem claim_C6 (s : AppState) :
    (handleReset s).squares = List.replicate 9 Cell.empty ∧
    (handleReset s).xIsNext = true ∧
    outcomeOf (handleReset s).squares = .inProgress ∧
    (handleReset s).squares = initState.squares ∧
    (handleReset s).xIsNext = initState.xIsNext := by
  refine ⟨rfl, rfl, ?_, rfl, rfl⟩
  show outcomeOf (List.replicate 9 Cell.empty) = Outcome.inProgress
  decide

/-! ## C9: the frame of an accepted move -/

/-- C9: an accepted move at `i` (in range, game in progress, cell EMPTY)
leaves every other cell `j ≠ i` exactly as it was: the update copies the
board and writes the single cell `i`. -/
theorem claim_C9 (s : AppState) (i j : Nat) (hi : i ≤ 8) (hij : j ≠ i)
    (hwf : BoardWF s.squares) (ho : outcomeOf s.squares = .inProgress)
    (hc : jsGet s.squares i = .empty) :
    jsGet (handleSquareClick s i).squares j = jsGet s.squares j := by
  have hlt : i < s.squares.length := by rw [hwf.1]; omega
  rw [handleSquareClick_accepted s i (accepted_of_inProgress_empty s i ho hc)]
  show jsGet (jsSet s.squares i (curMark s)) j = jsGet s.squares j
  unfold jsSet
  rw [if_pos hlt]
  exact jsGet_set_ne s.squares i j (curMark s) fun h => hij h.symm

/-- Witness for C9: after X clicks square 0 of the fresh board, square 1 is
still EMPTY. -/
theorem claim_C9_witness :
    (0 : Nat) ≤ 8 ∧ (1 : Nat) ≠ 0 ∧ BoardWF initState.squares ∧
    outcomeOf initState.squares = Outcome.inProgress ∧
    jsGet initState.squares 0 = Cell.empty ∧
    jsGet (handleSquareClick initState 0).squares 1 = jsGet initState.squares 1 :=
  ⟨by decide, by decide, by decide, by decide, by decide,
   claim_C9 initState 0 1 (by decide) (by decide) (by decide) (by decide) (by decide)⟩

/-! ## C7: board-shape invariant along operation sequences -/

theorem jsGet_jsSet_cases (b : List Cell) (i j : Nat) (v : Cell) :
    jsGet (jsSet b i v) j = jsGet b j ∨ jsGet (jsSet b i v) j = v ∨
      jsGet (jsSet b i v) j = .hole := by
  unfold jsSet
  by_cases hi : i < b.length
  · rw [if_pos hi]
    by_cases hij : j = i
    · subst hij
      exact Or.inr (Or.inl (jsGet_set_self b j v hi))
    · exact Or.inl (jsGet_set_ne b i j v fun he => hij he.symm)
  · rw [if_neg hi]
    unfold jsGet
    rw [List.getD_eq_getElem?_getD]
    have hlenR : (b ++ List.replicate (i - b.length) Cell.hole).length = i := by
      simp; omega
    rcases Nat.lt_or_ge j b.length with hj | hj
    · rw [List.getElem?_append_left (by rw [hlenR]; omega)]
      rw [List.getElem?_append_left hj]
      left
      rw [List.getD_eq_getElem?_getD]
    · rcases Nat.lt_or_ge j i with hji | hji
      · rw [List.getElem?_append_left (by rw [hlenR]; omega)]
        rw [List.getElem?_append_right hj]
        rw [List.getElem?_replicate]
        rw [if_pos (by omega)]
        right; right; rfl
      · rw [List.getElem?_append_right (by rw [hlenR]; omega), hlenR]
        rcases Nat.eq_or_lt_of_le hji with heq | hgt
        · rw [← heq, Nat.sub_self]
          right; left; rfl
        · rw [List.getElem?_eq_none (by simp; omega)]
          right; right; rfl

theorem applyOp_click_length (s : AppState) (i : Nat) (hi : i ≤ 8)
    (hlen : s.squares.length = 9) :
    (handleSquareClick s i).squares.length = 9 := by
  by_cases h : acceptedClick s i = true
  · rw [handleSquareClick_accepted s i h]
    show (jsSet s.squares i (curMark s)).length = 9
    unfold jsSet
    rw [if_pos (by omega)]
    simp [hlen]
  · rw [Bool.not_eq_true] at h
    rw [handleSquareClick_rejected s i h]
    exact hlen

theorem runOps_length (ops : List Op) :
    ∀ s : AppState, s.squares.length = 9 → (∀ op ∈ ops, op.inRange) →
      (runOps s ops).squares.length = 9 := by
  induction ops with
  | nil => intro s h _; exact h
  | cons op ops ih =>
    intro s h hops
    have h1 : (applyOp s op).squares.length = 9 := by
      cases op with
      | click i =>
        exact applyOp_click_length s i (hops _ (List.mem_cons_self _ _)) h
      | reset => rfl
      | toggle => exact h
    exact ih _ h1 fun op' hop' => hops _ (List.mem_cons_of_mem _ hop')

theorem applyOp_preserves_nonempty (s : AppState) (op : Op) (hop : op ≠ .reset)
    (j : Nat) (h : jsGet s.squares j ≠ .empty) :
    jsGet (applyOp s op).squares j ≠ .empty := by
  cases op with
  | reset => exact absurd rfl hop
  | toggle => exact h
  | click i =>
    by_cases ha : acceptedClick s i = true
    · show jsGet (handleSquareClick s i).squares j ≠ .empty
      rw [handleSquareClick_accepted s i ha]
      show jsGet (jsSet s.squares i (curMark s)) j ≠ .empty
      rcases jsGet_jsSet_cases s.squares i j (curMark s) with hc | hc | hc
      · rw [hc]; exact h
      · rw [hc]; unfold curMark; by_cases hx : s.xIsNext <;> simp [hx]
      · rw [hc]; simp
    · rw [Bool.not_eq_true] at ha
      show jsGet (handleSquareClick s i).squares j ≠ .empty
      rw [handleSquareClick_rejected s i ha]
      exact h

/-- C7: along every sequence of in-range clicks, resets and theme toggles
from the initial state the board keeps exactly 9 cells; and no single
operation other than `reset` ever turns a non-EMPTY cell back to EMPTY (on
any state at all, any cell). -/
theorem claim_C7 (ops : List Op) (hops : ∀ op ∈ ops, op.inRange) :
    (runOps initState ops).squares.length = 9 ∧
    (∀ (s : AppState) (op : Op), op ≠ .reset → ∀ j : Nat,
      jsGet s.squares j ≠ .empty → jsGet (applyOp s op).squares j ≠ .empty) :=
  ⟨runOps_length ops initState (by decide) hops,
   fun s op hop j h => applyOp_preserves_nonempty s op hop j h⟩

/-- Witness for C7 on a concrete run: a click, a toggle, a reset and
another click keep the 9-cell board shape. -/
theorem claim_C7_witness :
    (∀ op ∈ [Op.click 0, Op.toggle, Op.reset, Op.click 4], op.inRange) ∧
    (runOps initState [Op.click 0, Op.toggle, Op.reset, Op.click 4]).squares.length = 9 :=
  ⟨by decide,
   (claim_C7 [Op.click 0, Op.toggle, Op.reset, Op.click 4] (by decide)).1⟩

/-! ## C8: theme independence -/

/-- C8: `toggleTheme` changes only the theme flag — board, turn and derived
outcome are untouched; `handleSquareClick` and `handleReset` never change
the theme; and the theme value has no influence on the board or turn
produced by either game operation. -/
theorem claim_C8 (s : AppState) (i : Nat) :
    (toggleTheme s).squares = s.squares ∧
    (toggleTheme s).xIsNext = s.xIsNext ∧
    outcomeOf (toggleTheme s).squares = outcomeOf s.squares ∧
    (handleSquareClick s i).theme = s.theme ∧
    (handleReset s).theme = s.theme ∧
    (∀ t : Theme,
      (handleSquareClick { s with theme := t } i).squares =
        (handleSquareClick s i).squares ∧
      (handleSquareClick { s with theme := t } i).xIsNext =
        (handleSquareClick s i).xIsNext ∧
      (handleReset { s with theme := t }).squares = (handleReset s).squares ∧
      (handleReset { s with theme := t }).xIsNext = (handleReset s).xIsNext) := by
  refine ⟨rfl, rfl, rfl, ?_, rfl, ?_⟩
  · unfold handleSquareClick
    split <;> rfl
  · intro t
    by_cases h :
        ((calculateWinner s.squares).winner.isSome ||
          (jsGet s.squares i).truthy) = true <;>
      refine ⟨?_, ?_, rfl, rfl⟩ <;>
      simp [handleSquareClick, curMark, h]
